import Mathlib

/-!
Verification development for the candy-lfs configuration and credential
module (src/candy_lfs/config.py). The Python module is shallowly embedded:
the settings document (the in-memory `_config` dict) becomes a structure of
optional fields, the credential-helper subprocess is modelled by an
abstract outcome type, and every operation of the module becomes a total
Lean function mirroring the Python control flow.
-/

/-- Tenant entry of the `tenants` list: a dict with keys `tenant_id` and `name`. -/
structure Tenant where
  tenant_id : String
  name : String
deriving DecidableEq, Repr

/-- The settings document: the in-memory `_config` dict of `Config`.
Each field is `none` when the corresponding key is absent from the dict.
`current_tenant` distinguishes key-absent (`none`), key present holding
Python `None` (`some none`), and key present holding a string.
`tenant_repos` is an insertion-ordered association list mirroring a Python
dict from tenant_id to a list of repository names. -/
structure ConfigDoc where
  api_endpoint : Option String := none
  lfs_endpoint : Option String := none
  current_tenant : Option (Option String) := none
  tenants : Option (List Tenant) := none
  tenant_repos : Option (List (String × List String)) := none
deriving DecidableEq, Repr

/-- Lookup in an insertion-ordered association list (Python dict read `d[k]` / `d.get(k)`). -/
def alookup {α : Type} (k : String) : List (String × α) → Option α
  | [] => none
  | q :: qs => if q.1 = k then some q.2 else alookup k qs

/-- Update-or-append in an association list (Python dict write `d[k] = v`:
an existing key keeps its position, a new key is appended). -/
def dictSet {α : Type} (k : String) (v : α) : List (String × α) → List (String × α)
  | [] => [(k, v)]
  | q :: qs => if q.1 = k then (k, v) :: qs else q :: dictSet k v qs

/-- Key removal in an association list (Python `del d[k]`, which removes the
single entry bearing the key in a dict). -/
def delKey {α : Type} (k : String) : List (String × α) → List (String × α)
  | [] => []
  | q :: qs => if q.1 = k then qs else q :: delKey k qs

/-- Keys of an association list, in order. -/
def keysOf {α : Type} (d : List (String × α)) : List String := d.map Prod.fst

/-! URL authority parsing: a model of `urllib.parse.urlparse(url).netloc`.
Python first splits off a scheme (chars before the first `:` when they form
a valid scheme: nonempty, leading ASCII letter, all scheme characters),
then, when the remainder starts with `//`, takes the network location as
the characters up to the next `/`, `?` or `#`. The model works on the
character list of the URL. (The `ValueError` urlparse raises on unbalanced
IPv6 brackets is outside the claims and not modelled.) -/

/-- Characters allowed in a URL scheme: ASCII letters and digits, `+`, `-`, `.`. -/
def schemeChar (c : Char) : Bool := c.isAlphanum || c == '+' || c == '-' || c == '.'

/-- Split a character list around its first `:`; `none` when no colon occurs. -/
def splitAtColon : List Char → Option (List Char × List Char)
  | [] => none
  | c :: cs =>
    if c = ':' then some ([], cs)
    else (splitAtColon cs).map (fun p => (c :: p.1, p.2))

/-- Validity of a scheme candidate, per urlparse: nonempty, first character an
ASCII letter, all characters scheme characters. -/
def validScheme (s : List Char) : Bool :=
  match s with
  | [] => false
  | ch :: _ => ch.isAlpha && s.all schemeChar

/-- Remove a leading `scheme:` from the URL when the part before the first
colon is a valid scheme; otherwise return the URL unchanged. -/
def dropScheme (l : List Char) : List Char :=
  match splitAtColon l with
  | none => l
  | some (before, after) => if validScheme before then after else l

/-- URL characters that terminate the network-location component. -/
def urlDelim (c : Char) : Bool := c == '/' || c == '?' || c == '#'

/-- Network location of a URL as a character list: after scheme removal, the
characters between a leading `//` and the next delimiter; empty otherwise. -/
def netlocCore (l : List Char) : List Char :=
  match dropScheme l with
  | '/' :: '/' :: r => r.takeWhile (fun c => !urlDelim c)
  | _ => []

/-- The `netloc` attribute of `urlparse` on a URL string. -/
def netloc (s : String) : String := String.mk (netlocCore s.data)

/-! The Config operations, embedded one for one from the Python methods. -/

/-- The `lfs_endpoint` property: the dict value when the key is present,
else the build/environment default (`dflt` stands for `DEFAULT_LFS_ENDPOINT`). -/
def lfs_endpoint_of (dflt : String) (c : ConfigDoc) : String := (c.lfs_endpoint).getD dflt

/-- Python truthiness of the `repo_name : Optional[str]` argument:
`None` and the empty string are falsy. -/
def strTruthy (r : Option String) : Bool :=
  match r with
  | none => false
  | some s => s != ""

/-- Embeds `Config._get_git_credential_info`: returns the (host, path) pair
used for the git credential identity, branching on truthiness of the
resolved lfs_endpoint and of repo_name exactly as the Python does. -/
def get_git_credential_info (dflt : String) (c : ConfigDoc) (tenant_id : String)
    (repo_name : Option String) : String × String :=
  let lfs := lfs_endpoint_of dflt c
  if lfs ≠ "" then
    (netloc lfs,
      if strTruthy repo_name then tenant_id ++ "/" ++ repo_name.getD "" else tenant_id)
  else if strTruthy repo_name then ("candy-lfs.local", tenant_id ++ "/" ++ repo_name.getD "")
  else ("candy-lfs.local", tenant_id)

/-- The three verbs of the external git credential helper protocol. -/
inductive HelperVerb where
  | fill
  | approve
  | reject
deriving DecidableEq, Repr

/-- A request issued to the external credential helper: the key=value record
written to the helper process standard input. -/
structure CredRequest where
  verb : HelperVerb
  host : String
  path : String
  username : String
  password : Option String := none
deriving DecidableEq, Repr

/-- Outcome of one `subprocess.run` invocation: `exc` models any raised
exception (process launch failure or timeout), `ok` models a completed
process with its return code and captured standard output. -/
inductive RunOutcome where
  | exc : RunOutcome
  | ok : Int → String → RunOutcome
deriving DecidableEq, Repr

/-- Raising behaviour of a bare `subprocess.run` call under an outcome. -/
def runRaises : RunOutcome → Except String Unit
  | .exc => .error "subprocess failure"
  | .ok _ _ => .ok ()

/-- Effect of a `try ... except Exception: pass` block around a unit computation. -/
def swallow : Except String Unit → Except String Unit
  | .error _ => .ok ()
  | .ok u => .ok u

/-- Split on a separator character, keeping empty pieces: the model of
Python `str.split(sep)` for a one-character separator. -/
def splitOnChar (sep : Char) : List Char → List (List Char)
  | [] => [[]]
  | c :: cs =>
    if c = sep then [] :: splitOnChar sep cs
    else
      match splitOnChar sep cs with
      | [] => [[c]]
      | l :: ls => (c :: l) :: ls

/-- Everything after the first occurrence of a character: the model of
Python `s.split(sep, 1)[1]` when the character occurs (the callers below
only apply it under a prefix guarantee that it does). -/
def afterChar (sep : Char) : List Char → List Char
  | [] => []
  | c :: cs => if c = sep then cs else afterChar sep cs

/-- Characters removed by Python `str.strip()`. -/
def pyWhitespace (c : Char) : Bool :=
  c == ' ' || c == '\t' || c == '\n' || c == '\r' || c == '\x0B' || c == '\x0C'

/-- The model of Python `str.strip()`: whitespace removed from both ends. -/
def stripChars (l : List Char) : List Char :=
  ((l.dropWhile pyWhitespace).reverse.dropWhile pyWhitespace).reverse

/-- Scan of the helper output in `_git_credential_get`: iterate the lines of
`result.stdout.split("\n")`; the first line starting with `password=`
yields the text after the first `=` (Python `line.split("=", 1)[1]`). -/
def findPassword (out : String) : Option String :=
  (splitOnChar '\n' out.data).findSome? (fun line =>
    if ("password=".data).isPrefixOf line then some (String.mk (afterChar '=' line))
    else none)

/-- Embeds `Config._git_credential_get` given the outcome of the `git
credential fill` subprocess: on an exception or a non-zero exit it falls
through to `None`; on exit 0 it scans for a password line. -/
def git_credential_fill_result (o : RunOutcome) : Option String :=
  match o with
  | .exc => none
  | .ok rc out => if rc = 0 then findPassword out else none

/-- Raising behaviour of `Config._git_credential_store` (the whole body is
wrapped in `try ... except Exception: pass`). -/
def git_credential_store_result (o : RunOutcome) : Except String Unit :=
  swallow (runRaises o)

/-- Raising behaviour of `Config._git_credential_erase` (same swallow-all wrapper). -/
def git_credential_erase_result (o : RunOutcome) : Except String Unit :=
  swallow (runRaises o)

/-- Embeds `Config.get_github_token`: derives the identity, issues the fill
request with username = tenant_id, and returns the parsed result. -/
def get_github_token (dflt : String) (c : ConfigDoc) (tenant_id : String)
    (repo_name : Option String) (o : RunOutcome) : CredRequest × Option String :=
  let hp := get_git_credential_info dflt c tenant_id repo_name
  ({ verb := .fill, host := hp.1, path := hp.2, username := tenant_id, password := none },
   git_credential_fill_result o)

/-- The global git-config key consulted and set by `_ensure_use_http_path`. -/
def ensure_use_http_path_key (host : String) : String :=
  "credential.https://" ++ host ++ ".useHttpPath"

/-- Whether `_ensure_use_http_path` issues the `git config --global <key> true`
write, as a function of the outcome of the preceding `--get` read: an
exception on the read skips the write (caught by the swallow-all handler);
a completed read triggers the write when the exit code is non-zero or the
stripped output differs from "true". -/
def ensure_use_http_path_writes (o : RunOutcome) : Bool :=
  match o with
  | .exc => false
  | .ok rc out => decide (rc ≠ 0) || String.mk (stripChars out.data) != "true"

/-- Observable effects of `Config.set_github_token`: the git-config key it
ensures, whether the ensure step writes, and the approve request it issues. -/
structure StoreEffects where
  ensureKey : String
  ensureWrites : Bool
  approve : CredRequest
deriving DecidableEq, Repr

/-- Embeds `Config.set_github_token`: derives the identity, runs
`_ensure_use_http_path` on the host (its read outcome is `o`), then issues
the approve request with username = tenant_id and the token as password. -/
def set_github_token (dflt : String) (c : ConfigDoc) (tenant_id token : String)
    (repo_name : Option String) (o : RunOutcome) : StoreEffects :=
  let hp := get_git_credential_info dflt c tenant_id repo_name
  { ensureKey := ensure_use_http_path_key hp.1,
    ensureWrites := ensure_use_http_path_writes o,
    approve := { verb := .approve, host := hp.1, path := hp.2,
                 username := tenant_id, password := some token } }

/-- Embeds `Config.delete_github_token`: derives the identity and issues the
reject request with username = tenant_id. -/
def delete_github_token (dflt : String) (c : ConfigDoc) (tenant_id : String)
    (repo_name : Option String) : CredRequest :=
  let hp := get_git_credential_info dflt c tenant_id repo_name
  { verb := .reject, host := hp.1, path := hp.2, username := tenant_id, password := none }

/-- Embeds `Config.get_tenant_repos`: the list registered for the tenant in
the `tenant_repos` dict, empty when the key (or the whole dict) is absent. -/
def get_tenant_repos (c : ConfigDoc) (tenant_id : String) : List String :=
  (alookup tenant_id ((c.tenant_repos).getD [])).getD []

/-- Embeds `Config.set_tenant_repos`: creates the `tenant_repos` dict when
absent, then replaces the list for the tenant wholesale. -/
def set_tenant_repos (c : ConfigDoc) (tenant_id : String) (repo_names : List String) :
    ConfigDoc :=
  { c with tenant_repos := some (dictSet tenant_id repo_names ((c.tenant_repos).getD [])) }

/-- Embeds `Config._clear_tenant_repos`: deletes the key from the dict when
present, a no-op otherwise. -/
def clear_tenant_repos (c : ConfigDoc) (tenant_id : String) : ConfigDoc :=
  let d := (c.tenant_repos).getD []
  if (alookup tenant_id d).isSome then { c with tenant_repos := some (delKey tenant_id d) }
  else c

/-- Embeds `Config.delete_all_tenant_credentials`: reads the tenant repo
list, issues one reject per listed repository (the config document is not
consulted for or changed by the subprocess outcomes), then clears the
tenant entry of `tenant_repos`. Returns the new document and the issued
requests in order. -/
def delete_all_tenant_credentials (dflt : String) (c : ConfigDoc) (tenant_id : String) :
    ConfigDoc × List CredRequest :=
  let repo_names := get_tenant_repos c tenant_id
  let reqs := repo_names.map (fun r => delete_github_token dflt c tenant_id (some r))
  (clear_tenant_repos c tenant_id, reqs)

/-- Embeds `Config.get_tenant_list`. -/
def get_tenant_list (c : ConfigDoc) : List Tenant := (c.tenants).getD []

/-- Embeds the for/break/else loop of `Config.add_tenant` over the tenants
list: the first entry with the given id has its name updated in place, and
when no entry matches a fresh entry is appended. -/
def addTenantList (ts : List Tenant) (tid nm : String) : List Tenant :=
  match ts with
  | [] => [⟨tid, nm⟩]
  | t :: rest =>
    if t.tenant_id = tid then ⟨tid, nm⟩ :: rest
    else t :: addTenantList rest tid nm

/-- Embeds `Config.add_tenant`. -/
def add_tenant (c : ConfigDoc) (tenant_id name : String) : ConfigDoc :=
  { c with tenants := some (addTenantList ((c.tenants).getD []) tenant_id name) }

/-- Embeds `Config.remove_tenant`: filters the tenants list, persists, then
calls `delete_github_token` for the repo-less identity (reading the
lfs_endpoint from the updated document). Returns the new document and the
issued reject request. -/
def remove_tenant (dflt : String) (c : ConfigDoc) (tenant_id : String) :
    ConfigDoc × CredRequest :=
  let c2 := { c with tenants := some (((c.tenants).getD []).filter
      (fun t => t.tenant_id != tenant_id)) }
  (c2, delete_github_token dflt c2 tenant_id none)

/-! Persistence: `_save_config` serialises the whole document with
`yaml.dump` (which sorts mapping keys) and `_load_config` reads it back
with `yaml.safe_load(f) or {}`, defaulting a fresh document when the file
is absent. The YAML library is the trusted external serialiser, so the
file is modelled at the YAML value level: dump becomes an encoding of the
document into a YAML value (mapping keys emitted in sorted order, exactly
the keys present in the dict), safe_load becomes a decoding back. -/

/-- YAML values as far as the settings document needs them. -/
inductive YVal where
  | nul : YVal
  | str : String → YVal
  | list : List YVal → YVal
  | map : List (String × YVal) → YVal

/-- Insert one key-value pair into a key-ascending association list
(the sorting step of `yaml.dump` on mapping keys). -/
def insKey {α : Type} (p : String × α) : List (String × α) → List (String × α)
  | [] => [p]
  | q :: qs => if p.1 < q.1 then p :: q :: qs else q :: insKey p qs

/-- Sort an association list by key ascending, as `yaml.dump` emits dict keys. -/
def sortKeys {α : Type} : List (String × α) → List (String × α)
  | [] => []
  | p :: ps => insKey p (sortKeys ps)

/-- Encoding of one tenant entry (a two-key dict, keys emitted sorted). -/
def encodeTenant (t : Tenant) : YVal :=
  .map [("name", .str t.name), ("tenant_id", .str t.tenant_id)]

/-- Encoding of the `tenant_repos` dict: keys sorted, each value a string list. -/
def encodeRepos (d : List (String × List String)) : YVal :=
  .map ((sortKeys d).map (fun kv => (kv.1, .list (kv.2.map .str))))

/-- One optional mapping entry: present keys carry their value, absent keys
are not emitted. -/
def optEntry (k : String) (v : Option YVal) : List (String × YVal) :=
  match v with
  | none => []
  | some y => [(k, y)]

/-- Encoding of the whole settings document as the dumped YAML mapping, keys
in the sorted order `yaml.dump` uses. A `current_tenant` holding Python
`None` is emitted as YAML null. -/
def encodeDoc (c : ConfigDoc) : List (String × YVal) :=
  optEntry "api_endpoint" ((c.api_endpoint).map .str) ++
  optEntry "current_tenant" ((c.current_tenant).map (fun v =>
    match v with
    | none => YVal.nul
    | some s => YVal.str s)) ++
  optEntry "lfs_endpoint" ((c.lfs_endpoint).map .str) ++
  optEntry "tenant_repos" ((c.tenant_repos).map encodeRepos) ++
  optEntry "tenants" ((c.tenants).map (fun ts => YVal.list (ts.map encodeTenant)))

/-- Decoding of an optional string-valued key. -/
def decodeOptStr : Option YVal → Option (Option String)
  | none => some none
  | some (.str s) => some (some s)
  | some _ => none

/-- Decoding of the `current_tenant` key: absent, null, or a string. -/
def decodeCurTenant : Option YVal → Option (Option (Option String))
  | none => some none
  | some .nul => some (some none)
  | some (.str s) => some (some (some s))
  | some _ => none

/-- Decoding of one tenant entry. -/
def decodeTenant : YVal → Option Tenant
  | .map m =>
    match alookup "tenant_id" m, alookup "name" m with
    | some (.str i), some (.str n) => some ⟨i, n⟩
    | _, _ => none
  | _ => none

/-- Decoding of a list of tenant entries, failing on the first bad entry. -/
def decodeTenantList : List YVal → Option (List Tenant)
  | [] => some []
  | v :: rest =>
    match decodeTenant v, decodeTenantList rest with
    | some t, some tl => some (t :: tl)
    | _, _ => none

/-- Decoding of the `tenants` key. -/
def decodeTenants : Option YVal → Option (Option (List Tenant))
  | none => some none
  | some (.list l) => (decodeTenantList l).map some
  | some _ => none

/-- Decoding of a list of YAML strings, failing on any non-string element. -/
def decodeStrs : List YVal → Option (List String)
  | [] => some []
  | v :: rest =>
    match v with
    | .str s =>
      match decodeStrs rest with
      | some tl => some (s :: tl)
      | none => none
    | _ => none

/-- Decoding of a YAML list of strings. -/
def decodeStrList : YVal → Option (List String)
  | .list l => decodeStrs l
  | _ => none

/-- Decoding of the entries of the `tenant_repos` mapping. -/
def decodeReposEntries : List (String × YVal) → Option (List (String × List String))
  | [] => some []
  | (k, v) :: rest =>
    match decodeStrList v, decodeReposEntries rest with
    | some vs, some tl => some ((k, vs) :: tl)
    | _, _ => none

/-- Decoding of the `tenant_repos` key. -/
def decodeRepos : Option YVal → Option (Option (List (String × List String)))
  | none => some none
  | some (.map m) => (decodeReposEntries m).map some
  | some _ => none

/-- Decoding of a dumped settings mapping back into a settings document. -/
def decodeDoc (m : List (String × YVal)) : Option ConfigDoc :=
  match decodeOptStr (alookup "api_endpoint" m), decodeOptStr (alookup "lfs_endpoint" m),
      decodeCurTenant (alookup "current_tenant" m), decodeTenants (alookup "tenants" m),
      decodeRepos (alookup "tenant_repos" m) with
  | some a, some l, some ct, some ts, some tr => some ⟨a, l, ct, ts, tr⟩
  | _, _, _, _, _ => none

/-- Embeds `Config._save_config`: the file written is the full document,
dumped as one YAML mapping. -/
def save_config (c : ConfigDoc) : YVal := .map (encodeDoc c)

/-- Embeds `Config._load_config`: a missing file yields the default document
(`api_endpoint` from the startup default, `current_tenant` present as
Python None); an existing file is parsed, a falsy parse (empty file or
empty mapping, via `yaml.safe_load(f) or \x7b\x7d`) yields the empty
document; a mapping decodes as the settings document. -/
def load_config (dfltApi : String) : Option YVal → Option ConfigDoc
  | none => some { api_endpoint := some dfltApi, current_tenant := some none }
  | some .nul => some {}
  | some (.map m) => decodeDoc m
  | some _ => none

/-- Equality of two optional `tenant_repos` dicts in the Python `==` sense:
both keys absent, or both present with every lookup agreeing (dict
equality ignores key order). -/
def ReposEquiv : Option (List (String × List String)) →
    Option (List (String × List String)) → Prop
  | none, none => True
  | some d1, some d2 => ∀ k, alookup k d1 = alookup k d2
  | _, _ => False

/-- Equality of two settings documents in the Python `==` sense: all scalar
fields and the tenants list equal, and the `tenant_repos` dicts equal as
dicts. -/
def DocEquiv (a b : ConfigDoc) : Prop :=
  a.api_endpoint = b.api_endpoint ∧ a.lfs_endpoint = b.lfs_endpoint ∧
  a.current_tenant = b.current_tenant ∧ a.tenants = b.tenants ∧
  ReposEquiv a.tenant_repos b.tenant_repos

/-! General lemmas about the association-list dictionary operations. -/

theorem alookup_dictSet_self {α : Type} (k : String) (v : α) (d : List (String × α)) :
    alookup k (dictSet k v d) = some v := by
  induction d with
  | nil => simp [dictSet, alookup]
  | cons q qs ih =>
    by_cases h : q.1 = k <;> simp [dictSet, alookup, h, ih]

theorem alookup_eq_none_of_not_mem {α : Type} (k : String) (d : List (String × α))
    (h : k ∉ keysOf d) : alookup k d = none := by
  induction d with
  | nil => simp [alookup]
  | cons q qs ih =>
    simp only [keysOf, List.map_cons, List.mem_cons] at h
    push_neg at h
    simp [alookup, Ne.symm h.1, ih (by simpa [keysOf] using h.2)]

theorem alookup_delKey_self {α : Type} (k : String) (d : List (String × α))
    (hnd : (keysOf d).Nodup) : alookup k (delKey k d) = none := by
  induction d with
  | nil => simp [delKey, alookup]
  | cons q qs ih =>
    simp only [keysOf, List.map_cons, List.nodup_cons] at hnd
    by_cases h : q.1 = k
    · subst h
      have hred : delKey q.1 (q :: qs) = qs := by simp [delKey]
      rw [hred]
      exact alookup_eq_none_of_not_mem _ _ hnd.1
    · simp [delKey, alookup, h, ih hnd.2]

theorem findSome?_eq_none_of_all_none {α β : Type} (f : α → Option β) (l : List α)
    (h : ∀ a ∈ l, f a = none) : l.findSome? f = none := by
  induction l with
  | nil => rfl
  | cons a as ih =>
    rw [List.findSome?_cons]
    rw [h a (List.mem_cons_self a as)]
    exact ih (fun x hx => h x (List.mem_cons_of_mem a hx))

/-! Helper facts about identity derivation. -/

theorem info_path_none (dflt : String) (c : ConfigDoc) (tid : String) :
    (get_git_credential_info dflt c tid none).2 = tid := by
  by_cases h : lfs_endpoint_of dflt c ≠ "" <;>
    simp [get_git_credential_info, h, strTruthy]

theorem info_ignores_tenants (dflt : String) (c : ConfigDoc) (x : Option (List Tenant))
    (tid : String) (repo : Option String) :
    get_git_credential_info dflt { c with tenants := x } tid repo =
      get_git_credential_info dflt c tid repo := rfl

/-- Claim C2: the username field of the request issued by each of the
retrieve, store and erase operations is always exactly the tenant id,
for every tenant id, repo name, endpoint configuration and helper outcome. -/
theorem claim_C2 (dflt : String) (c : ConfigDoc) (tid token : String)
    (repo : Option String) (o : RunOutcome) :
    (get_github_token dflt c tid repo o).1.username = tid ∧
    (set_github_token dflt c tid token repo o).approve.username = tid ∧
    (delete_github_token dflt c tid repo).username = tid := by
  refine ⟨rfl, rfl, rfl⟩

/-- Claim C3: a failed credential-helper invocation (exception, meaning
process launch failure or timeout, or a non-zero exit) never surfaces an
error: the retrieve operation returns the absence value, the store and
erase wrappers complete normally; and a completed fill whose output holds
no password line also yields absence. -/
theorem claim_C3 (dflt : String) (c : ConfigDoc) (tid : String) (repo : Option String)
    (o : RunOutcome)
    (hfail : o = RunOutcome.exc ∨ ∃ rc out, o = RunOutcome.ok rc out ∧ rc ≠ 0) :
    (get_github_token dflt c tid repo o).2 = none ∧
    git_credential_store_result o = Except.ok () ∧
    git_credential_erase_result o = Except.ok () ∧
    (∀ (rc : Int) (out : String),
      (∀ line ∈ splitOnChar '\n' (String.data out),
        ("password=".data).isPrefixOf line = false) →
      (get_github_token dflt c tid repo (RunOutcome.ok rc out)).2 = none) := by
  refine ⟨?_, ?_, ?_, ?_⟩
  · rcases hfail with h | ⟨rc, out, h, hrc⟩
    · subst h; rfl
    · subst h
      simp [get_github_token, git_credential_fill_result, hrc]
  · cases o <;> rfl
  · cases o <;> rfl
  · intro rc out hnone
    by_cases hrc : rc = 0
    · subst hrc
      have : findPassword out = none := by
        apply findSome?_eq_none_of_all_none
        intro line hline
        simp [hnone line hline]
      simp [get_github_token, git_credential_fill_result, this]
    · simp [get_github_token, git_credential_fill_result, hrc]

/-- Witness for claim C3 at a concrete input: a timed-out fill yields absence. -/
theorem claim_C3_witness :
    (get_github_token "" {} "t1" none RunOutcome.exc).2 = none :=
  (claim_C3 "" {} "t1" none RunOutcome.exc (Or.inl rfl)).1

/-- Claim C6: removing a tenant leaves the tenants list without any entry of
that id, is a no-op on the list when the id was never present, issues a
reject for the repo-less identity (path exactly the tenant id, username
the tenant id), and leaves the tenant_repos mapping untouched. -/
theorem claim_C6 (dflt : String) (c : ConfigDoc) (tid : String) :
    (∀ t ∈ get_tenant_list (remove_tenant dflt c tid).1, t.tenant_id ≠ tid) ∧
    ((∀ t ∈ get_tenant_list c, t.tenant_id ≠ tid) →
      get_tenant_list (remove_tenant dflt c tid).1 = get_tenant_list c) ∧
    (remove_tenant dflt c tid).2 =
      { verb := HelperVerb.reject, host := (get_git_credential_info dflt c tid none).1,
        path := tid, username := tid, password := none } ∧
    (remove_tenant dflt c tid).1.tenant_repos = c.tenant_repos := by
  refine ⟨?_, ?_, ?_, rfl⟩
  · intro t ht
    simp only [remove_tenant, get_tenant_list, Option.getD_some, List.mem_filter,
      bne_iff_ne, ne_eq] at ht
    exact ht.2
  · intro hall
    simp only [remove_tenant, get_tenant_list, Option.getD_some]
    apply List.filter_eq_self.mpr
    intro t ht
    simpa using hall t ht
  · show delete_github_token dflt _ tid none = _
    rw [delete_github_token]
    rw [show get_git_credential_info dflt _ tid none = get_git_credential_info dflt c tid none
      from info_ignores_tenants dflt c _ tid none]
    rw [CredRequest.mk.injEq]
    exact ⟨rfl, rfl, info_path_none dflt c tid, rfl, rfl⟩

/-- Witness for claim C6 at a concrete input: removing an absent tenant
leaves the tenants list unchanged. -/
theorem claim_C6_witness :
    get_tenant_list (remove_tenant "" { tenants := some [⟨"t2", "n"⟩] } "t1").1 =
      [⟨"t2", "n"⟩] := by
  have h := (claim_C6 "" { tenants := some [⟨"t2", "n"⟩] } "t1").2.1
  exact h (by decide)

/-- Claim C7: setting the repository list for a tenant replaces it wholesale,
so reading it back yields exactly the given names in order; and reading a
tenant with no registered list yields the empty list. -/
theorem claim_C7 (c : ConfigDoc) (tid : String) (names : List String)
    (c2 : ConfigDoc) (t2 : String)
    (habs : alookup t2 ((c2.tenant_repos).getD []) = none) :
    get_tenant_repos (set_tenant_repos c tid names) tid = names ∧
    get_tenant_repos c2 t2 = [] := by
  constructor
  · simp [get_tenant_repos, set_tenant_repos, alookup_dictSet_self]
  · simp [get_tenant_repos, habs]

/-- Witness for claim C7 at concrete inputs. -/
theorem claim_C7_witness :
    get_tenant_repos (set_tenant_repos {} "t1" ["r1", "r2"]) "t1" = ["r1", "r2"] ∧
    get_tenant_repos ({} : ConfigDoc) "unknown" = [] :=
  claim_C7 {} "t1" ["r1", "r2"] {} "unknown" rfl

/-! Facts about the add_tenant loop. `tenantIdx` is the index of the first
entry bearing a tenant id, the position the Python for loop updates. -/

/-- Index of the first entry with the given tenant id. -/
def tenantIdx (tid : String) : List Tenant → Option Nat
  | [] => none
  | t :: ts => if t.tenant_id = tid then some 0 else (tenantIdx tid ts).map (· + 1)

theorem addTenantList_of_idx (tid nm : String) :
    ∀ (ts : List Tenant) (i : Nat), tenantIdx tid ts = some i →
      addTenantList ts tid nm = ts.set i ⟨tid, nm⟩ := by
  intro ts
  induction ts with
  | nil => intro i h; simp [tenantIdx] at h
  | cons t rest ih =>
    intro i h
    by_cases ht : t.tenant_id = tid
    · rw [tenantIdx, if_pos ht] at h
      cases h
      simp [addTenantList, ht]
    · rw [tenantIdx, if_neg ht] at h
      rcases Option.map_eq_some'.mp h with ⟨j, hj, hji⟩
      subst hji
      simp [addTenantList, ht, ih j hj]

theorem addTenantList_of_none (tid nm : String) :
    ∀ ts : List Tenant, tenantIdx tid ts = none →
      addTenantList ts tid nm = ts ++ [⟨tid, nm⟩] := by
  intro ts
  induction ts with
  | nil => intro h; rfl
  | cons t rest ih =>
    intro h
    by_cases ht : t.tenant_id = tid
    · rw [tenantIdx, if_pos ht] at h
      cases h
    · rw [tenantIdx, if_neg ht] at h
      simp [addTenantList, ht, ih (Option.map_eq_none'.mp h)]

theorem tenantIdx_addTenantList (tid nm : String) :
    ∀ ts : List Tenant, tenantIdx tid (addTenantList ts tid nm) =
      some ((tenantIdx tid ts).getD ts.length) := by
  intro ts
  induction ts with
  | nil => simp [addTenantList, tenantIdx]
  | cons t rest ih =>
    by_cases ht : t.tenant_id = tid
    · simp [addTenantList, ht, tenantIdx]
    · rw [addTenantList]
      rw [if_neg ht]
      rw [tenantIdx, if_neg ht, ih]
      rw [tenantIdx, if_neg ht]
      cases hrest : tenantIdx tid rest <;> simp [hrest]

theorem countP_eq_zero_of_tenantIdx_none (tid : String) :
    ∀ ts : List Tenant, tenantIdx tid ts = none →
      ts.countP (fun t => t.tenant_id == tid) = 0 := by
  intro ts
  induction ts with
  | nil => intro _; rfl
  | cons t rest ih =>
    intro h
    by_cases ht : t.tenant_id = tid
    · rw [tenantIdx, if_pos ht] at h
      cases h
    · rw [tenantIdx, if_neg ht] at h
      simp [List.countP_cons, ht, ih (Option.map_eq_none'.mp h)]

theorem countP_addTenantList_of_present (tid nm : String) :
    ∀ ts : List Tenant, (tenantIdx tid ts).isSome →
      (addTenantList ts tid nm).countP (fun t => t.tenant_id == tid) =
        ts.countP (fun t => t.tenant_id == tid) := by
  intro ts
  induction ts with
  | nil => intro h; simp [tenantIdx] at h
  | cons t rest ih =>
    intro h
    by_cases ht : t.tenant_id = tid
    · simp [addTenantList, ht, List.countP_cons]
    · rw [tenantIdx, if_neg ht] at h
      rw [addTenantList, if_neg ht]
      rw [List.countP_cons, List.countP_cons]
      rw [ih (by simpa using h)]

theorem countP_pos_of_tenantIdx_some (tid : String) :
    ∀ (ts : List Tenant) (i : Nat), tenantIdx tid ts = some i →
      0 < ts.countP (fun t => t.tenant_id == tid) := by
  intro ts
  induction ts with
  | nil => intro i h; simp [tenantIdx] at h
  | cons t rest ih =>
    intro i h
    by_cases ht : t.tenant_id = tid
    · simp [List.countP_cons, ht]
    · rw [tenantIdx, if_neg ht] at h
      rcases Option.map_eq_some'.mp h with ⟨j, hj, _⟩
      have := ih j hj
      rw [List.countP_cons]
      omega

/-- Claim C5: on a tenants list honouring the uniqueness invariant of the
data model (at most one entry per tenant id), add_tenant with a present id
rewrites that entry in place (same position, same length), with an absent
id appends at the end, and two successive calls with the same id leave
exactly one entry for it, bearing the latest name, at the position the
first call gave it. -/
theorem claim_C5 (c : ConfigDoc) (tid n1 n2 : String)
    (hinv : (get_tenant_list c).countP (fun t => t.tenant_id == tid) ≤ 1) :
    (∀ i, tenantIdx tid (get_tenant_list c) = some i →
      get_tenant_list (add_tenant c tid n1) = (get_tenant_list c).set i ⟨tid, n1⟩) ∧
    (tenantIdx tid (get_tenant_list c) = none →
      get_tenant_list (add_tenant c tid n1) = get_tenant_list c ++ [⟨tid, n1⟩]) ∧
    tenantIdx tid (get_tenant_list (add_tenant c tid n1)) =
      some ((tenantIdx tid (get_tenant_list c)).getD (get_tenant_list c).length) ∧
    (get_tenant_list (add_tenant (add_tenant c tid n1) tid n2)).countP
        (fun t => t.tenant_id == tid) = 1 ∧
    tenantIdx tid (get_tenant_list (add_tenant (add_tenant c tid n1) tid n2)) =
      tenantIdx tid (get_tenant_list (add_tenant c tid n1)) ∧
    ∀ i, tenantIdx tid (get_tenant_list (add_tenant c tid n1)) = some i →
      get_tenant_list (add_tenant (add_tenant c tid n1) tid n2) =
        (get_tenant_list (add_tenant c tid n1)).set i ⟨tid, n2⟩ := by
  have hlist : ∀ (c2 : ConfigDoc) (nm : String),
      get_tenant_list (add_tenant c2 tid nm) = addTenantList (get_tenant_list c2) tid nm :=
    fun c2 nm => rfl
  set ts := get_tenant_list c with hts
  have h1 : (addTenantList ts tid n1).countP (fun t => t.tenant_id == tid) = 1 := by
    cases hidx : tenantIdx tid ts with
    | none =>
      rw [addTenantList_of_none tid n1 ts hidx]
      rw [List.countP_append]
      rw [countP_eq_zero_of_tenantIdx_none tid ts hidx]
      simp [List.countP_cons]
    | some i =>
      rw [countP_addTenantList_of_present tid n1 ts (by simp [hidx])]
      have := countP_pos_of_tenantIdx_some tid ts i hidx
      omega
  refine ⟨?_, ?_, ?_, ?_, ?_, ?_⟩
  · intro i h
    rw [hlist]
    exact addTenantList_of_idx tid n1 ts i h
  · intro h
    rw [hlist]
    exact addTenantList_of_none tid n1 ts h
  · rw [hlist]
    exact tenantIdx_addTenantList tid n1 ts
  · rw [hlist, hlist]
    rw [countP_addTenantList_of_present tid n2 _ (by simp [tenantIdx_addTenantList tid n1 ts])]
    exact h1
  · rw [hlist, hlist]
    rw [tenantIdx_addTenantList tid n2 (addTenantList ts tid n1)]
    rw [tenantIdx_addTenantList tid n1 ts]
    simp
  · intro i h
    rw [hlist, hlist]
    rw [hlist] at h
    exact addTenantList_of_idx tid n2 _ i h

/-- Witness for claim C5 at a concrete input: two adds of the same id from
an empty list leave exactly one entry for the id. -/
theorem claim_C5_witness :
    (get_tenant_list (add_tenant (add_tenant {} "t1" "A") "t1" "B")).countP
      (fun t => t.tenant_id == "t1") = 1 :=
  (claim_C5 {} "t1" "A" "B" (by decide)).2.2.2.1

/-! Facts about identity paths used for claim C4. -/

theorem info_path_some (dflt : String) (c : ConfigDoc) (tid r : String) (h : r ≠ "") :
    (get_git_credential_info dflt c tid (some r)).2 = tid ++ "/" ++ r := by
  by_cases hl : lfs_endpoint_of dflt c ≠ "" <;>
    simp [get_git_credential_info, hl, strTruthy, h]

theorem append_slash_ne (tid r : String) : tid ++ "/" ++ r ≠ tid := by
  intro h
  have hlen := congrArg String.length h
  rw [String.length_append, String.length_append] at hlen
  have hone : ("/" : String).length = 1 := rfl
  rw [hone] at hlen
  omega

/-- Counterexample to claim C4 as stated: with an empty-string repository
name registered for the tenant, the single erase issued carries the bare
tenant id as its path, which is exactly the repo-less identity the claim
says is never erased. -/
theorem claim_C4_counterexample :
    ((delete_all_tenant_credentials "" { tenant_repos := some [("t1", [""])] } "t1").2.map
      CredRequest.path) = ["t1"] ∧
    (delete_github_token "" { tenant_repos := some [("t1", [""])] } "t1" none).path =
      "t1" := by
  constructor <;> decide

/-- Claim C4 as amended: provided every registered repository name is
nonempty (an empty name degenerates to the repo-less identity by Python
truthiness), delete_all_tenant_credentials issues exactly one reject per
registered repository, at path tenant_id/repo, none of them the bare
tenant_id path, and afterwards the tenant has no registered repositories,
independently of any erase outcome (the document update takes no input
from the subprocess results). -/
theorem claim_C4_amended (dflt : String) (c : ConfigDoc) (tid : String)
    (hnd : (keysOf ((c.tenant_repos).getD [])).Nodup)
    (hne : ∀ r ∈ get_tenant_repos c tid, r ≠ "") :
    get_tenant_repos (delete_all_tenant_credentials dflt c tid).1 tid = [] ∧
    (delete_all_tenant_credentials dflt c tid).2 =
      (get_tenant_repos c tid).map (fun r =>
        { verb := HelperVerb.reject,
          host := (get_git_credential_info dflt c tid (some r)).1,
          path := tid ++ "/" ++ r, username := tid, password := none }) ∧
    ∀ req ∈ (delete_all_tenant_credentials dflt c tid).2, req.path ≠ tid := by
  have hmap : (delete_all_tenant_credentials dflt c tid).2 =
      (get_tenant_repos c tid).map (fun r =>
        { verb := HelperVerb.reject,
          host := (get_git_credential_info dflt c tid (some r)).1,
          path := tid ++ "/" ++ r, username := tid, password := none }) := by
    apply List.map_congr_left
    intro r hr
    rw [delete_github_token, CredRequest.mk.injEq]
    exact ⟨rfl, rfl, info_path_some dflt c tid r (hne r hr), rfl, rfl⟩
  refine ⟨?_, hmap, ?_⟩
  · show get_tenant_repos (clear_tenant_repos c tid) tid = []
    rw [clear_tenant_repos]
    by_cases h : (alookup tid ((c.tenant_repos).getD [])).isSome
    · rw [if_pos h]
      simp [get_tenant_repos, alookup_delKey_self tid _ hnd]
    · rw [if_neg h]
      simp only [Option.isSome] at h
      rcases hl : alookup tid ((c.tenant_repos).getD []) with _ | v
      · simp [get_tenant_repos, hl]
      · rw [hl] at h
        simp at h
  · intro req hreq
    rw [hmap] at hreq
    rcases List.mem_map.mp hreq with ⟨r, _, hr⟩
    rw [← hr]
    exact append_slash_ne tid r

/-- Witness for claim C4 at a concrete input. -/
theorem claim_C4_witness :
    get_tenant_repos (delete_all_tenant_credentials ""
      { tenant_repos := some [("t1", ["r1", "r2"])] } "t1").1 "t1" = [] :=
  (claim_C4_amended "" { tenant_repos := some [("t1", ["r1", "r2"])] } "t1"
    (by decide) (by decide)).1

/-! Characterisation of the netloc model on well-formed URLs, for claim C1. -/

theorem splitAtColon_append (s r : List Char) (h : ∀ a ∈ s, a ≠ ':') :
    splitAtColon (s ++ ':' :: r) = some (s, r) := by
  induction s with
  | nil => simp [splitAtColon]
  | cons a as ih =>
    have ha : ¬ a = ':' := h a (List.mem_cons_self a as)
    rw [List.cons_append, splitAtColon, if_neg ha,
      ih (fun x hx => h x (List.mem_cons_of_mem a hx))]
    rfl

theorem takeWhile_append_all {p : Char → Bool} (auth rest : List Char)
    (hall : ∀ a ∈ auth, p a = true)
    (hrest : rest = [] ∨ ∃ c2 r2, rest = c2 :: r2 ∧ p c2 = false) :
    (auth ++ rest).takeWhile p = auth := by
  induction auth with
  | nil =>
    rcases hrest with h | ⟨c2, r2, h, hc⟩
    · simp [h]
    · simp [h, List.takeWhile_cons, hc]
  | cons a as ih =>
    rw [List.cons_append, List.takeWhile_cons, if_pos (hall a (List.mem_cons_self a as))]
    rw [ih (fun x hx => hall x (List.mem_cons_of_mem a hx))]

theorem netlocCore_wellformed (ch : Char) (tl auth rest : List Char)
    (hal : ch.isAlpha = true) (hsc : (ch :: tl).all schemeChar = true)
    (hauth : ∀ a ∈ auth, urlDelim a = false)
    (hrest : rest = [] ∨ ∃ c2 r2, rest = c2 :: r2 ∧ urlDelim c2 = true) :
    netlocCore ((ch :: tl) ++ ':' :: '/' :: '/' :: (auth ++ rest)) = auth := by
  have hcolon : ∀ a ∈ ch :: tl, a ≠ ':' := by
    intro a ha hcon
    have hc := List.all_eq_true.mp hsc a ha
    rw [hcon] at hc
    exact absurd hc (by decide)
  have hd : dropScheme ((ch :: tl) ++ ':' :: '/' :: '/' :: (auth ++ rest)) =
      '/' :: '/' :: (auth ++ rest) := by
    rw [dropScheme, splitAtColon_append _ _ hcolon]
    simp [validScheme, hal, hsc]
  rw [netlocCore, hd]
  apply takeWhile_append_all
  · intro a ha
    simp [hauth a ha]
  · rcases hrest with h | ⟨c2, r2, h, hc⟩
    · exact Or.inl h
    · exact Or.inr ⟨c2, r2, h, by simp [hc]⟩

/-- Counterexample to claim C1 as stated, at the input tenant t1, repo_name
the empty string, lfs_endpoint URL with an explicit port: the code keeps
the port in the host (urlparse netloc) where the claim strips it, and
derives the bare path t1 where the claim prescribes the separator form
with nothing else, namely t1/. -/
theorem claim_C1_counterexample :
    get_git_credential_info "" { lfs_endpoint := some "https://lfs.example.com:8443/api" }
      "t1" (some "") = ("lfs.example.com:8443", "t1") ∧
    (("lfs.example.com:8443", "t1") : String × String) ≠ ("lfs.example.com", "t1/") := by
  constructor <;> decide

/-- Claim C1 as amended: with a configured (nonempty) lfs_endpoint of the
well-formed shape scheme://authority..., the derived host is the full URL
authority with only the scheme stripped (port retained, per urlparse
netloc); with no configured endpoint the host is the fixed placeholder
candy-lfs.local; in both cases the path is exactly tenant_id when
repo_name is absent or empty, and tenant_id/repo_name (single separator,
nothing else) when repo_name is a nonempty string. -/
theorem claim_C1_amended (dflt : String) (c : ConfigDoc) (tid : String)
    (repo : Option String) (ch : Char) (tl auth rest : List Char)
    (hal : ch.isAlpha = true) (hsc : (ch :: tl).all schemeChar = true)
    (hauth : ∀ a ∈ auth, urlDelim a = false)
    (hrest : rest = [] ∨ ∃ c2 r2, rest = c2 :: r2 ∧ urlDelim c2 = true) :
    (lfs_endpoint_of dflt c =
        String.mk ((ch :: tl) ++ ':' :: '/' :: '/' :: (auth ++ rest)) →
      get_git_credential_info dflt c tid repo =
        (String.mk auth,
          match repo with
          | none => tid
          | some r => if r = "" then tid else tid ++ "/" ++ r)) ∧
    (lfs_endpoint_of dflt c = "" →
      get_git_credential_info dflt c tid repo =
        ("candy-lfs.local",
          match repo with
          | none => tid
          | some r => if r = "" then tid else tid ++ "/" ++ r)) := by
  have hpath : (if strTruthy repo then tid ++ "/" ++ repo.getD "" else tid) =
      (match repo with
        | none => tid
        | some r => if r = "" then tid else tid ++ "/" ++ r) := by
    cases repo with
    | none => rfl
    | some r =>
      by_cases hr : r = "" <;> simp [strTruthy, hr]
  constructor
  · intro h
    have hne : lfs_endpoint_of dflt c ≠ "" := by
      rw [h]
      intro hcon
      have hdata := congrArg String.data hcon
      simp at hdata
    rw [get_git_credential_info, if_pos hne, h]
    rw [Prod.mk.injEq]
    constructor
    · rw [netloc]
      show String.mk (netlocCore ((ch :: tl) ++ ':' :: '/' :: '/' :: (auth ++ rest))) = _
      rw [netlocCore_wellformed ch tl auth rest hal hsc hauth hrest]
    · exact hpath
  · intro h
    rw [get_git_credential_info, h]
    rw [if_neg (by simp)]
    cases repo with
    | none => rfl
    | some r =>
      by_cases hr : r = ""
      · subst hr
        rfl
      · have : strTruthy (some r) = true := by simp [strTruthy, hr]
        rw [if_pos this]
        simp [hr]

/-- Witness for claim C1 at concrete inputs: the spec example endpoint
(without a port) and a nonempty repo name. -/
theorem claim_C1_witness :
    get_git_credential_info "" { lfs_endpoint := some "https://lfs.example.com/api" }
      "t1" (some "r1") = ("lfs.example.com", "t1/r1") := by
  have h := (claim_C1_amended "" { lfs_endpoint := some "https://lfs.example.com/api" }
    "t1" (some "r1") 'h' "ttps".data "lfs.example.com".data "/api".data
    (by decide) (by decide) (by decide)
    (Or.inr ⟨'/', "api".data, by decide, by decide⟩)).1 (by decide)
  rw [h]
  decide

/-- Transcription of the wording of claim C9 for comparison: the read
"did not return true", that is, the read fails (in any way, including the
read attempt raising) or yields a value other than true. -/
def readNotTrue (o : RunOutcome) : Bool :=
  match o with
  | .exc => true
  | .ok rc out => decide (rc ≠ 0) || String.mk (stripChars out.data) != "true"

/-- Counterexample to claim C9 as stated: when the read subprocess raises
(launch failure or timeout), the read did not return true, yet the code
issues no write — the claimed if-and-only-if fails at this input. -/
theorem claim_C9_counterexample :
    (set_github_token "" {} "t1" "tok" none RunOutcome.exc).ensureWrites = false ∧
    readNotTrue RunOutcome.exc = true := ⟨rfl, rfl⟩

/-- Claim C9 as amended: the ensure-path-scoping step of the store operation
targets the global key credential.https://<host>.useHttpPath for the
derived host, and issues the write exactly when the read subprocess
completed with a non-zero exit or a stripped output other than true; a
read attempt that raises (launch failure or timeout) issues no write. -/
theorem claim_C9_amended (dflt : String) (c : ConfigDoc) (tid token : String)
    (repo : Option String) (o : RunOutcome) :
    ((set_github_token dflt c tid token repo o).ensureWrites = true ↔
      ∃ rc out, o = RunOutcome.ok rc out ∧
        (rc ≠ 0 ∨ String.mk (stripChars out.data) ≠ "true")) ∧
    (set_github_token dflt c tid token repo o).ensureKey =
      "credential.https://" ++ (get_git_credential_info dflt c tid repo).1 ++
        ".useHttpPath" := by
  constructor
  · cases o with
    | exc => simp [set_github_token, ensure_use_http_path_writes]
    | ok rc out =>
      simp only [set_github_token, ensure_use_http_path_writes, Bool.or_eq_true,
        decide_eq_true_eq, bne_iff_ne, ne_eq, RunOutcome.ok.injEq]
      constructor
      · intro h
        exact ⟨rc, out, ⟨rfl, rfl⟩, h⟩
      · rintro ⟨rc1, out1, ⟨h1, h2⟩, h3⟩
        subst h1
        subst h2
        exact h3
  · rfl

/-- Witness for claim C9 at concrete inputs: a completed read whose output
strips to true issues no write, and a completed read with exit 1 does. -/
theorem claim_C9_witness :
    (set_github_token "" {} "t1" "tok" none (RunOutcome.ok 0 "true\n")).ensureWrites = false ∧
    (set_github_token "" {} "t1" "tok" none (RunOutcome.ok 1 "")).ensureWrites = true := by
  constructor
  · have h := (claim_C9_amended "" {} "t1" "tok" none (RunOutcome.ok 0 "true\n")).1
    by_contra hne
    have : (set_github_token "" {} "t1" "tok" none
        (RunOutcome.ok 0 "true\n")).ensureWrites = true := by
      revert hne
      cases (set_github_token "" {} "t1" "tok" none
        (RunOutcome.ok 0 "true\n")).ensureWrites <;> simp
    rcases h.mp this with ⟨rc, out, heq, hbad⟩
    cases heq
    rcases hbad with hbad | hbad
    · exact hbad rfl
    · exact hbad (by decide)
  · exact (claim_C9_amended "" {} "t1" "tok" none (RunOutcome.ok 1 "")).1.mpr
      ⟨1, "", rfl, Or.inl (by decide)⟩

/-! Round-trip lemmas for the persisted settings document, claim C8. -/

theorem mem_keysOf_insKey {α : Type} (p : String × α) (d : List (String × α)) (a : String) :
    a ∈ keysOf (insKey p d) ↔ a = p.1 ∨ a ∈ keysOf d := by
  induction d with
  | nil => simp [insKey, keysOf]
  | cons q qs ih =>
    by_cases h : p.1 < q.1
    · simp [insKey, h, keysOf]
    · have hins : insKey p (q :: qs) = q :: insKey p qs := by
        rw [insKey, if_neg h]
      rw [hins]
      simp only [keysOf, List.map_cons, List.mem_cons] at ih ⊢
      rw [ih]
      tauto

theorem mem_keysOf_sortKeys {α : Type} (d : List (String × α)) (a : String) :
    a ∈ keysOf (sortKeys d) ↔ a ∈ keysOf d := by
  induction d with
  | nil => simp [sortKeys]
  | cons p ps ih =>
    rw [sortKeys, mem_keysOf_insKey]
    simp only [keysOf, List.map_cons, List.mem_cons]
    rw [show (a ∈ List.map Prod.fst (sortKeys ps)) = (a ∈ keysOf (sortKeys ps)) from rfl, ih]
    rfl

theorem alookup_insKey {α : Type} (p : String × α) (d : List (String × α)) (k : String)
    (h : p.1 ∉ keysOf d) : alookup k (insKey p d) = alookup k (p :: d) := by
  induction d with
  | nil => simp [insKey]
  | cons q qs ih =>
    simp only [keysOf, List.map_cons, List.mem_cons, not_or] at h
    by_cases hlt : p.1 < q.1
    · rw [insKey, if_pos hlt]
    · rw [insKey, if_neg hlt]
      have ihh := ih (by simpa [keysOf] using h.2)
      by_cases hq : q.1 = k
      · have hpk : ¬ p.1 = k := by rw [← hq]; exact h.1
        simp [alookup, hq, hpk]
      · rw [alookup, if_neg hq, ihh]
        by_cases hp : p.1 = k
        · rw [alookup, if_pos hp, alookup, if_pos hp]
        · rw [alookup, if_neg hp, alookup, if_neg hp, alookup, if_neg hq]

theorem alookup_sortKeys {α : Type} (d : List (String × α)) (k : String)
    (hnd : (keysOf d).Nodup) : alookup k (sortKeys d) = alookup k d := by
  induction d with
  | nil => simp [sortKeys]
  | cons p ps ih =>
    simp only [keysOf, List.map_cons, List.nodup_cons] at hnd
    have h1 : p.1 ∉ keysOf (sortKeys ps) :=
      fun hc => hnd.1 ((mem_keysOf_sortKeys ps p.1).mp hc)
    rw [sortKeys, alookup_insKey p _ k h1]
    rw [alookup, alookup]
    rw [ih hnd.2]

theorem alookup_optEntry_append_ne (k k2 : String) (v : Option YVal)
    (rest : List (String × YVal)) (h : ¬ k = k2) :
    alookup k2 (optEntry k v ++ rest) = alookup k2 rest := by
  cases v with
  | none => rfl
  | some y => simp [optEntry, alookup, h]

theorem alookup_optEntry_append_eq (k : String) (v : Option YVal)
    (rest : List (String × YVal)) (h : alookup k rest = none) :
    alookup k (optEntry k v ++ rest) = v := by
  cases v with
  | none => simpa [optEntry] using h
  | some y => simp [optEntry, alookup]

theorem alookup_optEntry_self (k : String) (v : Option YVal) :
    alookup k (optEntry k v) = v := by
  cases v <;> simp [optEntry, alookup]

theorem alookup_optEntry_ne (k k2 : String) (v : Option YVal) (h : ¬ k = k2) :
    alookup k2 (optEntry k v) = none := by
  cases v <;> simp [optEntry, alookup, h]

theorem encodeDoc_api (c : ConfigDoc) :
    alookup "api_endpoint" (encodeDoc c) = (c.api_endpoint).map YVal.str := by
  rw [encodeDoc]
  simp only [List.append_assoc]
  rw [alookup_optEntry_append_eq]
  rw [alookup_optEntry_append_ne _ _ _ _ (by decide)]
  rw [alookup_optEntry_append_ne _ _ _ _ (by decide)]
  rw [alookup_optEntry_append_ne _ _ _ _ (by decide)]
  exact alookup_optEntry_ne _ _ _ (by decide)

theorem encodeDoc_cur (c : ConfigDoc) :
    alookup "current_tenant" (encodeDoc c) = (c.current_tenant).map (fun v =>
      match v with
      | none => YVal.nul
      | some s => YVal.str s) := by
  rw [encodeDoc]
  simp only [List.append_assoc]
  rw [alookup_optEntry_append_ne _ _ _ _ (by decide)]
  rw [alookup_optEntry_append_eq]
  rw [alookup_optEntry_append_ne _ _ _ _ (by decide)]
  rw [alookup_optEntry_append_ne _ _ _ _ (by decide)]
  exact alookup_optEntry_ne _ _ _ (by decide)

theorem encodeDoc_lfs (c : ConfigDoc) :
    alookup "lfs_endpoint" (encodeDoc c) = (c.lfs_endpoint).map YVal.str := by
  rw [encodeDoc]
  simp only [List.append_assoc]
  rw [alookup_optEntry_append_ne _ _ _ _ (by decide)]
  rw [alookup_optEntry_append_ne _ _ _ _ (by decide)]
  rw [alookup_optEntry_append_eq]
  rw [alookup_optEntry_append_ne _ _ _ _ (by decide)]
  exact alookup_optEntry_ne _ _ _ (by decide)

theorem encodeDoc_repos (c : ConfigDoc) :
    alookup "tenant_repos" (encodeDoc c) = (c.tenant_repos).map encodeRepos := by
  rw [encodeDoc]
  simp only [List.append_assoc]
  rw [alookup_optEntry_append_ne _ _ _ _ (by decide)]
  rw [alookup_optEntry_append_ne _ _ _ _ (by decide)]
  rw [alookup_optEntry_append_ne _ _ _ _ (by decide)]
  rw [alookup_optEntry_append_eq]
  exact alookup_optEntry_ne _ _ _ (by decide)

theorem encodeDoc_tenants (c : ConfigDoc) :
    alookup "tenants" (encodeDoc c) =
      (c.tenants).map (fun ts => YVal.list (ts.map encodeTenant)) := by
  rw [encodeDoc]
  simp only [List.append_assoc]
  rw [alookup_optEntry_append_ne _ _ _ _ (by decide)]
  rw [alookup_optEntry_append_ne _ _ _ _ (by decide)]
  rw [alookup_optEntry_append_ne _ _ _ _ (by decide)]
  rw [alookup_optEntry_append_ne _ _ _ _ (by decide)]
  exact alookup_optEntry_self _ _

theorem decodeTenant_encodeTenant (t : Tenant) : decodeTenant (encodeTenant t) = some t := by
  have hne : ¬ (("name", YVal.str t.name) : String × YVal).1 = "tenant_id" := by
    show ¬ ("name" : String) = "tenant_id"
    decide
  have h1 : alookup "tenant_id"
      [("name", YVal.str t.name), ("tenant_id", YVal.str t.tenant_id)] =
      some (YVal.str t.tenant_id) := by
    rw [alookup, if_neg hne, alookup, if_pos rfl]
  have h2 : alookup "name"
      [("name", YVal.str t.name), ("tenant_id", YVal.str t.tenant_id)] =
      some (YVal.str t.name) := by
    rw [alookup, if_pos rfl]
  rw [encodeTenant, decodeTenant]
  rw [h1, h2]

theorem decodeTenantList_encode (ts : List Tenant) :
    decodeTenantList (ts.map encodeTenant) = some ts := by
  induction ts with
  | nil => rfl
  | cons t rest ih =>
    rw [List.map_cons, decodeTenantList, decodeTenant_encodeTenant, ih]

theorem decodeStrList_encode (vs : List String) :
    decodeStrList (YVal.list (vs.map YVal.str)) = some vs := by
  rw [decodeStrList]
  induction vs with
  | nil => rfl
  | cons v rest ih => simp [decodeStrs, ih]

theorem decodeReposEntries_encode (d : List (String × List String)) :
    decodeReposEntries (d.map (fun kv => (kv.1, YVal.list (kv.2.map YVal.str)))) =
      some d := by
  induction d with
  | nil => rfl
  | cons kv rest ih =>
    rw [List.map_cons, decodeReposEntries]
    rw [decodeStrList_encode, ih]

theorem decodeDoc_encodeDoc (c : ConfigDoc) :
    decodeDoc (encodeDoc c) =
      some { c with tenant_repos := (c.tenant_repos).map sortKeys } := by
  have h1 : decodeOptStr (alookup "api_endpoint" (encodeDoc c)) = some c.api_endpoint := by
    rw [encodeDoc_api]
    cases c.api_endpoint <;> rfl
  have h2 : decodeOptStr (alookup "lfs_endpoint" (encodeDoc c)) = some c.lfs_endpoint := by
    rw [encodeDoc_lfs]
    cases c.lfs_endpoint <;> rfl
  have h3 : decodeCurTenant (alookup "current_tenant" (encodeDoc c)) =
      some c.current_tenant := by
    rw [encodeDoc_cur]
    rcases c.current_tenant with _ | v
    · rfl
    · cases v <;> rfl
  have h4 : decodeTenants (alookup "tenants" (encodeDoc c)) = some c.tenants := by
    rw [encodeDoc_tenants]
    rcases c.tenants with _ | ts
    · rfl
    · rw [Option.map_some', decodeTenants, decodeTenantList_encode]
      rfl
  have h5 : decodeRepos (alookup "tenant_repos" (encodeDoc c)) =
      some ((c.tenant_repos).map sortKeys) := by
    rw [encodeDoc_repos]
    rcases c.tenant_repos with _ | d
    · rfl
    · rw [Option.map_some', Option.map_some', encodeRepos, decodeRepos]
      rw [decodeReposEntries_encode (sortKeys d)]
      rfl
  rw [decodeDoc, h1, h2, h3, h4, h5]

/-- Claim C8: persisting any settings document (its tenant_repos dict well
formed, with no duplicate keys, as a Python dict always is), then
reloading it from scratch, yields a document equal to the one persisted —
equal in the Python sense, where dicts compare regardless of key order
(the dump step emits mapping keys sorted). -/
theorem claim_C8 (dfltApi : String) (c : ConfigDoc)
    (hnd : (keysOf ((c.tenant_repos).getD [])).Nodup) :
    ∃ c2, load_config dfltApi (some (save_config c)) = some c2 ∧ DocEquiv c2 c := by
  refine ⟨{ c with tenant_repos := (c.tenant_repos).map sortKeys }, ?_, ?_⟩
  · show decodeDoc (encodeDoc c) = _
    exact decodeDoc_encodeDoc c
  · refine ⟨rfl, rfl, rfl, rfl, ?_⟩
    rcases hd : c.tenant_repos with _ | d
    · simp only [hd, Option.map_none']
      trivial
    · simp only [hd, Option.map_some']
      intro k
      apply alookup_sortKeys
      rw [hd] at hnd
      simpa using hnd

/-- Witness for claim C8 at a concrete document exercising every field. -/
theorem claim_C8_witness :
    ∃ c2, load_config "" (some (save_config
      { api_endpoint := some "https://api.example", lfs_endpoint := some "",
        current_tenant := some (some "t1"),
        tenants := some [⟨"t1", "Name One"⟩, ⟨"t2", "Name Two"⟩],
        tenant_repos := some [("t2", ["r2"]), ("t1", ["r1", "r3"])] })) = some c2 ∧
    DocEquiv c2
      { api_endpoint := some "https://api.example", lfs_endpoint := some "",
        current_tenant := some (some "t1"),
        tenants := some [⟨"t1", "Name One"⟩, ⟨"t2", "Name Two"⟩],
        tenant_repos := some [("t2", ["r2"]), ("t1", ["r1", "r3"])] } :=
  claim_C8 ""
    { api_endpoint := some "https://api.example", lfs_endpoint := some "",
      current_tenant := some (some "t1"),
      tenants := some [⟨"t1", "Name One"⟩, ⟨"t2", "Name Two"⟩],
      tenant_repos := some [("t2", ["r2"]), ("t1", ["r1", "r3"])] }
    (by decide)

/-- Claim C10: an lfs_endpoint key explicitly holding the empty string is
treated exactly like an unconfigured endpoint: identity derivation agrees
with the document lacking the key under an empty default, and the derived
host is the fixed fallback. -/
theorem claim_C10 (dflt : String) (c : ConfigDoc) (tid : String) (repo : Option String)
    (h : c.lfs_endpoint = some "") :
    get_git_credential_info dflt c tid repo =
      get_git_credential_info "" { c with lfs_endpoint := none } tid repo ∧
    (get_git_credential_info dflt c tid repo).1 = "candy-lfs.local" := by
  have h1 : lfs_endpoint_of dflt c = "" := by simp [lfs_endpoint_of, h]
  have h2 : lfs_endpoint_of "" { c with lfs_endpoint := none } = "" := by
    simp [lfs_endpoint_of]
  constructor
  · rw [get_git_credential_info, get_git_credential_info, h1, h2]
  · rw [get_git_credential_info, h1]
    by_cases hr : strTruthy repo = true <;> simp [hr]

/-- Witness for claim C10 at a concrete input. -/
theorem claim_C10_witness :
    get_git_credential_info "https://d.example" { lfs_endpoint := some "" } "t1" (some "r1") =
      get_git_credential_info "" { lfs_endpoint := none } "t1" (some "r1") ∧
    (get_git_credential_info "https://d.example" { lfs_endpoint := some "" } "t1"
      (some "r1")).1 = "candy-lfs.local" :=
  claim_C10 "https://d.example" { lfs_endpoint := some "" } "t1" (some "r1") rfl
